import Mathlib

/-!
# Verification of the Zork `dtextc.dat` text extractor

Shallow embedding of `src/docs/original-src-c/decode.py` and proofs about it.

Modelling conventions:
* A byte is a `Nat` (the inputs considered hold values `< 256`, as produced
  by reading a binary file in Python).
* The Python binary file handle is a `ByteStream`: the full byte list plus a
  cursor.  `f.read(n)` returns up to `n` bytes and advances the cursor by the
  number of bytes actually returned; `f.tell()` is the cursor.
* Python exceptions escaping a function are modelled with `Except Unit`.
  The print calls of the script are pure logging except where the f-string
  formatting itself raises (`chr(vedit)` on a negative value, `{strbit:04x}`
  on `None`, and `range(None)` inside the readers); those raise-points are
  modelled as `Except.error`.
* Python `str` values produced by `bytes.decode with the ascii codec and replace error handling`
  are modelled as lists of code points: a byte `b < 128` decodes to itself and
  any byte `≥ 128` decodes to U+FFFD (the replacement character).
* Rational numbers stand in for Python floats; every ratio compared in the
  script (`quality`, the `0.7` threshold) is exactly representable and the
  comparisons are away from rounding boundaries, so this is faithful.
-/

deriving instance DecidableEq for Except

namespace ZorkDecode

/-- A Python binary file object: full contents plus the read cursor. -/
structure ByteStream where
  data : List Nat
  pos : Nat
deriving DecidableEq, Repr

/-- Python `f.read(n)`: up to `n` bytes from the cursor; the cursor advances
by the number of bytes actually returned. -/
def fread (s : ByteStream) (n : Nat) : List Nat × ByteStream :=
  let chunk := (s.data.drop s.pos).take n
  (chunk, ⟨s.data, s.pos + chunk.length⟩)

/-- Big-endian signed 16-bit value of two bytes (Python struct.unpack with format >h). -/
def toSigned16 (hi lo : Nat) : Int :=
  let u := hi * 256 + lo
  if u < 32768 then (u : Int) else (u : Int) - 65536

/-- `read_int16_be` (decode.py lines 23-29): read 2 bytes, `none` when fewer
than 2 remain (the short chunk is still consumed, as with Python `f.read`). -/
def read_int16_be (s : ByteStream) : Option Int × ByteStream :=
  match fread s 2 with
  | ([hi, lo], t) => (some (toSigned16 hi lo), t)
  | (_, t) => (none, t)

/-- Loop body of `read_multiple_ints`: `count` iterations, stopping early when
the stream exhausts. -/
def read_ints_loop : ByteStream → Nat → List Int × ByteStream
  | s, 0 => ([], s)
  | s, n + 1 =>
    match read_int16_be s with
    | (none, t) => ([], t)
    | (some v, t) =>
      let r := read_ints_loop t n
      (v :: r.1, r.2)

/-- `read_multiple_ints` (decode.py lines 32-40).  Python `range(count)` of a
negative count is empty, hence `Int.toNat`. -/
def read_multiple_ints (s : ByteStream) (count : Int) : List Int × ByteStream :=
  read_ints_loop s count.toNat

/-- Python-dict insertion `values[index] = value`: replace in place when the
key is present, else append. -/
def dictSet (d : List (Int × Int)) (k v : Int) : List (Int × Int) :=
  if d.any (fun p => p.1 == k) then
    d.map (fun p => if p.1 == k then (k, v) else p)
  else d ++ [(k, v)]

/-- Python-dict lookup. -/
def dictGet (d : List (Int × Int)) (k : Int) : Option Int :=
  (d.find? (fun p => p.1 == k)).map (fun p => p.2)

/-- Loop of `read_partial_ints` (decode.py lines 43-64) for a declared count
below 255, expressed over the bytes remaining past the cursor.  Returns the
dictionary and the number of bytes consumed.  Each `while True` iteration
reads one index byte — breaking on exhaustion or on the sentinel 255 — then
a 16-bit value, stored only when complete.  A `None` value does not break
the loop; the next iteration then hits the exhausted stream and breaks,
which is folded into the consumed-byte count of the short cases:
* `[b]` with `b` not the sentinel: the index byte is consumed, the value
  read returns `None` consuming nothing more — 1 byte in all;
* `[b, x]` likewise, with the value read consuming the one leftover byte. -/
def sparse_byte_loop : List Nat → List (Int × Int) → List (Int × Int) × Nat
  | [], d => (d, 0)
  | [b], d => if b == 255 then (d, 1) else (d, 1)
  | [b, _x], d => if b == 255 then (d, 1) else (d, 2)
  | b :: hi :: lo :: rest, d =>
    if b == 255 then (d, 1)
    else
      let r := sparse_byte_loop rest (dictSet d (b : Int) (toSigned16 hi lo))
      (r.1, r.2 + 3)

/-- Loop of `read_partial_ints` (decode.py lines 43-64) for a declared count
of 255 or more: each iteration reads a 16-bit big-endian index — breaking on
exhaustion or on the sentinel value -1 — then a 16-bit value, stored only
when complete.  The short cases fold in the final exhausted iteration as in
`sparse_byte_loop`:
* `[b]`: the index read consumes the lone byte and returns `None`;
* `[i1, i2]` with a non-sentinel index: the value read returns `None`;
* `[i1, i2, w]` likewise, consuming the one leftover byte. -/
def sparse_int_loop : List Nat → List (Int × Int) → List (Int × Int) × Nat
  | [], d => (d, 0)
  | [_b], d => (d, 1)
  | [i1, i2], d => if toSigned16 i1 i2 == -1 then (d, 2) else (d, 2)
  | [i1, i2, _w], d => if toSigned16 i1 i2 == -1 then (d, 2) else (d, 3)
  | i1 :: i2 :: w1 :: w2 :: rest, d =>
    if toSigned16 i1 i2 == -1 then (d, 2)
    else
      let r := sparse_int_loop rest (dictSet d (toSigned16 i1 i2) (toSigned16 w1 w2))
      (r.1, r.2 + 4)

/-- `read_partial_ints` (decode.py lines 43-64) on the stream.  The source
tests `max_count < 255` afresh on every iteration, but `max_count` never
changes inside the loop, so the test is hoisted out of it here. -/
def read_sparse_ints (s : ByteStream) (max_count : Int) : List (Int × Int) × ByteStream :=
  let r :=
    if max_count < 255 then sparse_byte_loop (s.data.drop s.pos) []
    else sparse_int_loop (s.data.drop s.pos) []
  (r.1, ⟨s.data, s.pos + r.2⟩)

/-- Loop body of `read_flags`. -/
def read_flags_loop : ByteStream → Nat → List Bool × ByteStream
  | s, 0 => ([], s)
  | s, n + 1 =>
    match fread s 1 with
    | ([], t) => ([], t)
    | (b :: _, t) =>
      let r := read_flags_loop t n
      ((b != 0) :: r.1, r.2)

/-- `read_flags` (decode.py lines 67-75). -/
def read_flags (s : ByteStream) (count : Int) : List Bool × ByteStream :=
  read_flags_loop s count.toNat

/-- The 16 ASCII bytes of the key string of `decrypt_text`. -/
def zkey : List Nat := [73, 97, 110, 76, 97, 110, 99, 101, 84, 97, 121, 108, 111, 114, 74, 114]

/-- `decrypt_text` (decode.py lines 78-100): byte at running counter `x` maps
to `byte ^ zkey[x & 0xf] ^ (x & 0xff)`. -/
def decrypt_text : List Nat → Nat → List Nat
  | [], _ => []
  | b :: rest, x => ((b ^^^ zkey.getD (x &&& 15) 0) ^^^ (x &&& 255)) :: decrypt_text rest (x + 1)

/-! ## The schema walker (`skip_metadata`, decode.py lines 103-197)

The source is one long imperative function; it is embedded here as the
composition of one helper per schema section, each helper the exact sequence
of reads performed by the source for that section (the line numbers are in
each doc comment).  A section helper fails (`Except.error`) exactly where the
Python code would raise:
* the version print raises `TypeError` when `vedit` is `None` (comparison
  `vedit < 128` with `None`) and `ValueError` when `vedit < 0` (`chr`);
* the parameter print raises `TypeError` when `strbit` is `None`
  (format spec `{strbit:04x}`);
* a section whose count came back `None` raises `TypeError` at its first
  field read (`range(None)` inside `read_multiple_ints`).
-/

/-- Header reads of `skip_metadata` (decode.py lines 109-119): three version
ints then three parameter ints, with the two raising print statements. -/
def skip_header (s : ByteStream) : Except Unit ByteStream :=
  let (_vmaj, s) := read_int16_be s
  let (_vmin, s) := read_int16_be s
  let (vedit, s) := read_int16_be s
  match vedit with
  | none => .error ()
  | some v =>
    if v < 0 then .error () else
    let (_mxscor, s) := read_int16_be s
    let (strbit, s) := read_int16_be s
    let (_egmxsc, s) := read_int16_be s
    match strbit with
    | none => .error ()
    | some _ => .ok s

/-- The third header int16 (`vedit`), read deterministically from the start
of a stream: the value whose print can make `skip_header` raise. -/
def vedit_read (s : ByteStream) : Option Int :=
  (read_int16_be (read_int16_be (read_int16_be s).2).2).1

/-- The fifth header int16 (`strbit`), read deterministically from the start
of a stream: the value whose `{strbit:04x}` format raises on `None`. -/
def strbit_read (s : ByteStream) : Option Int :=
  (read_int16_be (read_int16_be (read_int16_be (read_int16_be (read_int16_be s).2).2).2).2).1

/-- Rooms section (decode.py lines 122-129). -/
def skip_rooms (s : ByteStream) : Except Unit ByteStream :=
  let (rlnt, s) := read_int16_be s
  match rlnt with
  | none => .error ()
  | some c =>
    let (_, s) := read_multiple_ints s c  -- rdesc1
    let (_, s) := read_multiple_ints s c  -- rdesc2
    let (_, s) := read_multiple_ints s c  -- rexit
    let (_, s) := read_sparse_ints s c    -- ractio
    let (_, s) := read_sparse_ints s c    -- rval
    let (_, s) := read_multiple_ints s c  -- rflag
    .ok s

/-- Exits section (decode.py lines 132-134). -/
def skip_exits (s : ByteStream) : Except Unit ByteStream :=
  let (xlnt, s) := read_int16_be s
  match xlnt with
  | none => .error ()
  | some c =>
    let (_, s) := read_multiple_ints s c  -- travel
    .ok s

/-- Objects section (decode.py lines 137-152). -/
def skip_objects (s : ByteStream) : Except Unit ByteStream :=
  let (olnt, s) := read_int16_be s
  match olnt with
  | none => .error ()
  | some c =>
    let (_, s) := read_multiple_ints s c  -- odesc1
    let (_, s) := read_multiple_ints s c  -- odesc2
    let (_, s) := read_sparse_ints s c    -- odesco
    let (_, s) := read_sparse_ints s c    -- oactio
    let (_, s) := read_multiple_ints s c  -- oflag1
    let (_, s) := read_sparse_ints s c    -- oflag2
    let (_, s) := read_sparse_ints s c    -- ofval
    let (_, s) := read_sparse_ints s c    -- otval
    let (_, s) := read_multiple_ints s c  -- osize
    let (_, s) := read_sparse_ints s c    -- ocapac
    let (_, s) := read_multiple_ints s c  -- oroom
    let (_, s) := read_sparse_ints s c    -- oadv
    let (_, s) := read_sparse_ints s c    -- ocan
    let (_, s) := read_sparse_ints s c    -- oread
    .ok s

/-- Secondary room data section (decode.py lines 155-158). -/
def skip_room2 (s : ByteStream) : Except Unit ByteStream :=
  let (r2lnt, s) := read_int16_be s
  match r2lnt with
  | none => .error ()
  | some c =>
    let (_, s) := read_multiple_ints s c  -- oroom2
    let (_, s) := read_multiple_ints s c  -- rroom2
    .ok s

/-- Clock events section (decode.py lines 161-165). -/
def skip_clock (s : ByteStream) : Except Unit ByteStream :=
  let (clnt, s) := read_int16_be s
  match clnt with
  | none => .error ()
  | some c =>
    let (_, s) := read_multiple_ints s c  -- ctick
    let (_, s) := read_multiple_ints s c  -- cactio
    let (_, s) := read_flags s c          -- cflag
    .ok s

/-- Villains section (decode.py lines 168-174). -/
def skip_villains (s : ByteStream) : Except Unit ByteStream :=
  let (vlnt, s) := read_int16_be s
  match vlnt with
  | none => .error ()
  | some c =>
    let (_, s) := read_multiple_ints s c  -- villns
    let (_, s) := read_sparse_ints s c    -- vprob
    let (_, s) := read_sparse_ints s c    -- vopps
    let (_, s) := read_multiple_ints s c  -- vbest
    let (_, s) := read_multiple_ints s c  -- vmelee
    .ok s

/-- Adventurers section (decode.py lines 177-185). -/
def skip_adventurers (s : ByteStream) : Except Unit ByteStream :=
  let (alnt, s) := read_int16_be s
  match alnt with
  | none => .error ()
  | some c =>
    let (_, s) := read_multiple_ints s c  -- aroom
    let (_, s) := read_sparse_ints s c    -- ascore
    let (_, s) := read_sparse_ints s c    -- avehic
    let (_, s) := read_multiple_ints s c  -- aobj
    let (_, s) := read_multiple_ints s c  -- aactio
    let (_, s) := read_multiple_ints s c  -- astren
    let (_, s) := read_sparse_ints s c    -- aflag
    .ok s

/-- Message metadata (decode.py lines 188-197): reads `mbase`, then the count
`mlnt`, then the message index table, and returns `f.tell()` with the table.
`mbase` is only interpolated into a plain f-string, so a `None` there does
not raise; a `None` count raises at `read_multiple_ints`. -/
def skip_message (s : ByteStream) : Except Unit (Nat × List Int) :=
  let (_mbase, s) := read_int16_be s
  let (mlnt, s) := read_int16_be s
  match mlnt with
  | none => .error ()
  | some c =>
    let (message_indices, s) := read_multiple_ints s c
    .ok (s.pos, message_indices)

/-- `skip_metadata` (decode.py lines 103-197): header, the seven record
sections in order, then the message metadata.  Returns the text start offset
(the cursor after the last read) and the message index table. -/
def skip_metadata (s : ByteStream) : Except Unit (Nat × List Int) := do
  let s ← skip_header s
  let s ← skip_rooms s
  let s ← skip_exits s
  let s ← skip_objects s
  let s ← skip_room2 s
  let s ← skip_clock s
  let s ← skip_villains s
  let s ← skip_adventurers s
  skip_message s

/-! ## The message segmenter (`extract_messages`, decode.py lines 200-267) -/

/-- The allowed byte set of the quality ratio (decode.py line 214):
`32 <= b <= 126 or b in (9, 10, 13, 0)`. -/
def allowedByte (b : Nat) : Bool :=
  decide ((32 ≤ b ∧ b ≤ 126) ∨ b = 9 ∨ b = 10 ∨ b = 13 ∨ b = 0)

/-- Quality ratio (decode.py lines 214-215): allowed-byte count over total,
`0` for an empty input. -/
def quality_of (l : List Nat) : ℚ :=
  if l.length > 0 then ((l.filter allowedByte).length : ℚ) / (l.length : ℚ) else 0

/-- Python `bytes.decode with the ascii codec and replace error handling` as a code-point list:
bytes `≥ 128` become U+FFFD. -/
def decode_replace (bs : List Nat) : List Nat :=
  bs.map (fun b => if b < 128 then b else 0xFFFD)

/-- Python `c.isprintable()` or membership in tab, newline, carriage return for the code points this
program produces (ASCII and U+FFFD): ASCII 32-126 and U+FFFD are printable,
and tab, newline, carriage return pass the whitespace test. -/
def keep_char (c : Nat) : Bool :=
  decide ((32 ≤ c ∧ c ≤ 126) ∨ c = 0xFFFD ∨ c = 10 ∨ c = 13 ∨ c = 9)

/-- Loop of `chunks8`, with fuel: every step consumes at least one byte, so
fuel equal to the length of the list always suffices. -/
def chunks8_loop : Nat → List Nat → List (List Nat)
  | 0, _ => []
  | _, [] => []
  | fuel + 1, b :: rest => ((b :: rest).take 8) :: chunks8_loop fuel ((b :: rest).drop 8)

/-- The 8-byte records of the fixed-stride strategy
(`range(0, len(decrypted_data), 8)`, decode.py line 221). -/
def chunks8 (l : List Nat) : List (List Nat) :=
  chunks8_loop l.length l

/-- Fixed-stride strategy (decode.py lines 220-236): truncate each 8-byte
chunk at its first zero byte, keep it when nonempty and some decoded
character is printable or whitespace. -/
def strided_messages (dec : List Nat) : List (List Nat) :=
  (chunks8 dec).filterMap (fun chunk =>
    let c := chunk.takeWhile (fun b => b != 0)
    if c.length > 0 then
      let text := decode_replace c
      if text.any keep_char then some text else none
    else none)

/-- Loop of the continuous-run strategy (decode.py lines 239-261), carrying
the accumulating `current_string`.  A zero byte flushes the run when its
length exceeds 2 and more than 0.7 of its characters pass `keep_char`
(`10 * count > 7 * length` is that exact rational comparison); a printable or
whitespace byte is appended; any other byte flushes unconditionally once the
length exceeds 2.  The run left when the bytes end is discarded. -/
def cont_loop : List Nat → List Nat → List (List Nat)
  | [], _cur => []
  | b :: rest, cur =>
    if b = 0 then
      (if cur.length > 2 then
        (let text := decode_replace cur
         if 10 * (text.filter keep_char).length > 7 * text.length then [text] else [])
       else []) ++ cont_loop rest []
    else if (32 ≤ b ∧ b ≤ 126) ∨ b = 9 ∨ b = 10 ∨ b = 13 then
      cont_loop rest (cur ++ [b])
    else
      (if cur.length > 2 then [decode_replace cur] else []) ++ cont_loop rest []

/-- Continuous-run strategy (decode.py lines 239-261). -/
def continuous_messages (dec : List Nat) : List (List Nat) :=
  cont_loop dec []

/-- `extract_messages` (decode.py lines 200-267): seek to `start_pos`, read
to the end, decrypt with counter 0, compute the quality ratio, run both
strategies and return the continuous-run list only when it is strictly
longer.  The `message_indices` argument is accepted and ignored, as in the
source. -/
def extract_messages (data : List Nat) (start_pos : Nat) (_message_indices : List Int) :
    List (List Nat) × ℚ :=
  let encrypted_data := data.drop start_pos
  let decrypted_data := decrypt_text encrypted_data 0
  let quality := quality_of decrypted_data
  let messages := strided_messages decrypted_data
  let continuous := continuous_messages decrypted_data
  (if continuous.length > messages.length then continuous else messages, quality)

/-- The whole pipeline as driven by `main` (decode.py lines 292-298):
`skip_metadata` on the opened file, then `extract_messages` with the offset
and index table it returned. -/
def pipeline (data : List Nat) : Except Unit (List (List Nat) × ℚ) := do
  let (pos, idx) ← skip_metadata ⟨data, 0⟩
  return extract_messages data pos idx

/-! ## The schema as an explicit table

The spec describes each schema section as one leading 16-bit count followed
by a fixed list of field reads whose lengths all equal that count.  These
definitions express that shape directly, so that the walker above can be
compared against it. -/

/-- The three field encodings of a schema section. -/
inductive FieldKind
  | dense
  | sparse
  | flag
deriving DecidableEq, Repr

/-- Reading one field of a section, given the count of the section. -/
def read_field (s : ByteStream) (c : Int) : FieldKind → ByteStream
  | .dense => (read_multiple_ints s c).2
  | .sparse => (read_sparse_ints s c).2
  | .flag => (read_flags s c).2

/-- A generic schema section: one leading 16-bit count, then the fixed field
list, every field read with that count.  A missing count raises at the first
field read (`range(None)`), so a section with fields fails there. -/
def walk_section (s : ByteStream) (fields : List FieldKind) : Except Unit ByteStream :=
  let (c, s) := read_int16_be s
  match c with
  | none => if fields.isEmpty then .ok s else .error ()
  | some c => .ok (fields.foldl (fun st k => read_field st c k) s)

/-- Field list of the rooms section. -/
def roomsFields : List FieldKind := [.dense, .dense, .dense, .sparse, .sparse, .dense]

/-- Field list of the exits section. -/
def exitsFields : List FieldKind := [.dense]

/-- Field list of the objects section. -/
def objectsFields : List FieldKind :=
  [.dense, .dense, .sparse, .sparse, .dense, .sparse, .sparse, .sparse, .dense, .sparse,
   .dense, .sparse, .sparse, .sparse]

/-- Field list of the secondary room section. -/
def room2Fields : List FieldKind := [.dense, .dense]

/-- Field list of the clock events section. -/
def clockFields : List FieldKind := [.dense, .dense, .flag]

/-- Field list of the villains section. -/
def villainsFields : List FieldKind := [.dense, .sparse, .sparse, .dense, .dense]

/-- Field list of the adventurers section. -/
def adventurersFields : List FieldKind :=
  [.dense, .sparse, .sparse, .dense, .dense, .dense, .sparse]

/-- Field list of the message-index section. -/
def messageFields : List FieldKind := [.dense]

/-- The walker restated over the schema table: the seven record sections as
generic count-plus-fields sections, then one extra int16 (`mbase`) and the
message-index section as a generic section.  Returns the text start offset. -/
def skip_metadata_table (s : ByteStream) : Except Unit Nat := do
  let s ← skip_header s
  let s ← walk_section s roomsFields
  let s ← walk_section s exitsFields
  let s ← walk_section s objectsFields
  let s ← walk_section s room2Fields
  let s ← walk_section s clockFields
  let s ← walk_section s villainsFields
  let s ← walk_section s adventurersFields
  let (_mbase, s) := read_int16_be s
  let s ← walk_section s messageFields
  return s.pos

/-- Modelled from the spec: the walk as the claim describes it, in which
every one of the eight sections, the message-index section included, is
exactly one leading count followed by its fields — no `mbase` word. -/
def skip_metadata_claim (s : ByteStream) : Except Unit Nat := do
  let s ← skip_header s
  let s ← walk_section s roomsFields
  let s ← walk_section s exitsFields
  let s ← walk_section s objectsFields
  let s ← walk_section s room2Fields
  let s ← walk_section s clockFields
  let s ← walk_section s villainsFields
  let s ← walk_section s adventurersFields
  let s ← walk_section s messageFields
  return s.pos

/-! ## Synthetic inputs for the end-to-end scenarios -/

/-- Metadata of a synthetic file in the own layout of the walker, with every
count 0: version `1.0A`, parameters `0,0,0`, each of the seven record
sections an int16 count 0 with a `0xFF` sentinel closing each of its sparse
fields, then `mbase = 0` and message count `mlnt = 0`.  46 bytes. -/
def emptyMeta : List Nat :=
  [0, 1, 0, 0, 0, 65,                              -- version 1.0 with edit byte 65
   0, 0, 0, 0, 0, 0,                               -- mxscor strbit egmxsc
   0, 0, 255, 255,                                 -- rooms: count 0, ractio rval sentinels
   0, 0,                                           -- exits: count 0
   0, 0, 255, 255, 255, 255, 255, 255, 255, 255, 255,  -- objects: count 0, 9 sentinels
   0, 0,                                           -- room2: count 0
   0, 0,                                           -- clock: count 0
   0, 0, 255, 255,                                 -- villains: count 0, 2 sentinels
   0, 0, 255, 255, 255,                            -- adventurers: count 0, 3 sentinels
   0, 0,                                           -- mbase = 0
   0, 0]                                           -- mlnt = 0

/-- The plaintext `"HELLO\0WORLD\0"`. -/
def plainHW : List Nat := [72, 69, 76, 76, 79, 0, 87, 79, 82, 76, 68, 0]

/-- The text region of the synthetic file: the encryption of `plainHW` with
counter 0 (the cipher is its own inverse, so encrypting is `decrypt_text`). -/
def encHW : List Nat := decrypt_text plainHW 0

/-- The synthetic end-to-end file in the own layout of the walker. -/
def fileHW : List Nat := emptyMeta ++ encHW

/-- A decrypted byte sequence on which the two segmentation strategies
disagree in count: four copies of `"ABC\0"`.  The continuous-run strategy
finds four runs, the fixed-stride strategy only one candidate per 8-byte
record, hence two. -/
def plainABC : List Nat :=
  [65, 66, 67, 0, 65, 66, 67, 0, 65, 66, 67, 0, 65, 66, 67, 0]

/-- The synthetic end-to-end file laid out as the spec describes it: the
message-index section is only a count and its table, with no `mbase` word,
so its metadata is `emptyMeta` without the two `mbase` bytes.  44 bytes of
metadata. -/
def fileHWspec : List Nat := emptyMeta.take 44 ++ encHW

/-- A file whose message-index table declares 5 entries but is truncated
after the second: the empty-schema metadata up to `mbase`, then
`mlnt = 5` and only the two index words 7 and 9. -/
def truncatedMeta : List Nat := emptyMeta.take 44 ++ [0, 5, 0, 7, 0, 9]

/-! ## Helper lemmas -/

theorem and_fifteen (x : Nat) : x &&& 15 = x % 16 := by
  have h := Nat.and_pow_two_sub_one_eq_mod x 4
  norm_num at h
  exact h

theorem and_twofiftyfive (x : Nat) : x &&& 255 = x % 256 := by
  have h := Nat.and_pow_two_sub_one_eq_mod x 8
  norm_num at h
  exact h

theorem xor_right_comm (a b c : Nat) : a ^^^ b ^^^ c = a ^^^ c ^^^ b := by
  rw [Nat.xor_assoc, Nat.xor_comm b c, ← Nat.xor_assoc]

theorem xor_cancel (a b : Nat) : a ^^^ b ^^^ b = a := by
  rw [Nat.xor_assoc, Nat.xor_self, Nat.xor_zero]

theorem decrypt_text_length (data : List Nat) : ∀ c : Nat,
    (decrypt_text data c).length = data.length := by
  induction data with
  | nil => intro c; rfl
  | cons b rest ih => intro c; simp [decrypt_text, ih]

theorem decrypt_text_getD (data : List Nat) : ∀ c i : Nat, i < data.length →
    (decrypt_text data c).getD i 0 =
      ((data.getD i 0) ^^^ zkey.getD ((c + i) % 16) 0) ^^^ ((c + i) % 256) := by
  induction data with
  | nil => intro c i h; simp at h
  | cons b rest ih =>
    intro c i h
    cases i with
    | zero => simp [decrypt_text, and_fifteen, and_twofiftyfive]
    | succ j =>
      have hj : j < rest.length := by simpa using h
      have h2 := ih (c + 1) j hj
      have hx : c + 1 + j = c + (j + 1) := by omega
      rw [hx] at h2
      simpa [decrypt_text] using h2

/-! ## Claim theorems -/

/-- C6: for every byte sequence and start counter, `decrypt_text` preserves
the length and maps the byte at index `i` (with `x = c + i`) to
`input XOR zkey[x mod 16] XOR (x mod 256)`, `zkey` being the 16 ASCII bytes
of the key string; the function is total by construction. -/
theorem c6_decrypt_formula (data : List Nat) (c : Nat) :
    (decrypt_text data c).length = data.length ∧
    ∀ i : Nat, i < data.length →
      (decrypt_text data c).getD i 0 =
        ((data.getD i 0) ^^^ zkey.getD ((c + i) % 16) 0) ^^^ ((c + i) % 256) :=
  ⟨decrypt_text_length data c, fun i h => decrypt_text_getD data c i h⟩

/-- Witness for C6: the formula instantiated at a concrete input, the index
bound discharged by computation. -/
theorem c6_witness :
    (decrypt_text [7, 7] 0).length = ([7, 7] : List Nat).length ∧
    (decrypt_text [7, 7] 0).getD 1 0 =
      (([7, 7] : List Nat).getD 1 0 ^^^ zkey.getD ((0 + 1) % 16) 0) ^^^ ((0 + 1) % 256) :=
  ⟨(c6_decrypt_formula [7, 7] 0).1, (c6_decrypt_formula [7, 7] 0).2 1 (by decide)⟩

/-- C7: decrypting twice with the same start counter restores the input:
the positional XOR codec is self-inverse. -/
theorem c7_decrypt_involutive (B : List Nat) (c : Nat) :
    decrypt_text (decrypt_text B c) c = B := by
  induction B generalizing c with
  | nil => rfl
  | cons b rest ih =>
    simp only [decrypt_text, List.cons.injEq]
    constructor
    · rw [xor_right_comm (b ^^^ zkey.getD (c &&& 15) 0) (c &&& 255) (zkey.getD (c &&& 15) 0),
        xor_cancel, xor_cancel]
    · exact ih (c + 1)

theorem quality_of_eq (dec : List Nat) :
    quality_of dec = ((dec.filter allowedByte).length : ℚ) / (dec.length : ℚ) := by
  by_cases h : dec.length > 0
  · simp [quality_of, h]
  · have h0 : dec = [] := by
      cases dec with
      | nil => rfl
      | cons a l => simp at h
    subst h0
    simp [quality_of]

theorem quality_of_eq_zero_iff (dec : List Nat) :
    quality_of dec = 0 ↔ dec.filter allowedByte = [] := by
  rw [quality_of_eq, div_eq_zero_iff]
  constructor
  · rintro (h | h)
    · have h1 : (dec.filter allowedByte).length = 0 := by exact_mod_cast h
      simpa [List.length_eq_zero] using h1
    · have h1 : dec.length = 0 := by exact_mod_cast h
      have hd : dec = [] := List.eq_nil_of_length_eq_zero h1
      subst hd
      rfl
  · intro h
    left
    rw [h]
    simp

theorem quality_of_eq_one_iff (dec : List Nat) :
    quality_of dec = 1 ↔ dec ≠ [] ∧ ∀ b ∈ dec, allowedByte b = true := by
  rcases eq_or_ne dec [] with rfl | hne
  · simp [quality_of]
  · have hlen : 0 < dec.length := List.length_pos.mpr hne
    have hq : (dec.length : ℚ) ≠ 0 := by
      exact_mod_cast hlen.ne'
    rw [quality_of_eq, div_eq_one_iff_eq hq]
    constructor
    · intro h
      have hc : (dec.filter allowedByte).length = dec.length := by exact_mod_cast h
      exact ⟨hne, List.filter_length_eq_length.mp hc⟩
    · rintro ⟨-, hall⟩
      exact_mod_cast List.filter_length_eq_length.mpr hall

/-- C4 counterexample: the decrypted byte list `[1]` is nonempty, yet the
quality ratio the pipeline computes over it is 0 — so "quality is 0 if and
only if the input is empty" fails. -/
theorem c4_counterexample :
    (extract_messages (decrypt_text [1] 0) 0 []).2 = 0 ∧
    decrypt_text ((decrypt_text [1] 0).drop 0) 0 = [1] ∧ ([1] : List Nat) ≠ [] := by
  have h : decrypt_text ((decrypt_text [1] 0).drop 0) 0 = [1] := by decide
  have h2 : List.filter allowedByte [1] = [] := by decide
  refine ⟨?_, h, by decide⟩
  show quality_of (decrypt_text ((decrypt_text [1] 0).drop 0) 0) = 0
  rw [h, quality_of_eq_zero_iff]
  exact h2

/-- C4 amended: the quality ratio over the decrypted bytes equals the
allowed-byte count divided by the total count; it is 0 exactly when no byte
is in the allowed set (in particular on empty input), and 1 exactly when the
input is nonempty and every byte is in the allowed set. -/
theorem c4_quality_characterization (data : List Nat) (start : Nat) (idx : List Int)
    (dec : List Nat) :
    (extract_messages data start idx).2 = quality_of (decrypt_text (data.drop start) 0) ∧
    quality_of dec = ((dec.filter allowedByte).length : ℚ) / (dec.length : ℚ) ∧
    (quality_of dec = 0 ↔ dec.filter allowedByte = []) ∧
    (quality_of dec = 1 ↔ dec ≠ [] ∧ ∀ b ∈ dec, allowedByte b = true) :=
  ⟨rfl, quality_of_eq dec, quality_of_eq_zero_iff dec, quality_of_eq_one_iff dec⟩

/-- C9: when the continuous-run strategy yields strictly more candidate
strings over the decrypted bytes than the fixed-stride strategy, the
segmenter returns the continuous-run candidates. -/
theorem c9_more_continuous_wins (data : List Nat) (start : Nat) (idx : List Int)
    (h : (strided_messages (decrypt_text (data.drop start) 0)).length <
         (continuous_messages (decrypt_text (data.drop start) 0)).length) :
    (extract_messages data start idx).1 =
      continuous_messages (decrypt_text (data.drop start) 0) := by
  simp only [extract_messages]
  rw [if_pos h]

/-- Witness for C9: on the encryption of four copies of `"ABC\0"` the
continuous-run strategy yields 4 candidates against 2, and is returned. -/
theorem c9_witness :
    (extract_messages (decrypt_text plainABC 0) 0 []).1 =
      continuous_messages (decrypt_text ((decrypt_text plainABC 0).drop 0) 0) :=
  c9_more_continuous_wins (decrypt_text plainABC 0) 0 [] (by decide)

/-- C10: when the two strategies yield equally many candidate strings the
comparison `len(continuous) > len(messages)` is false and the fixed-stride
list is returned. -/
theorem c10_tie_keeps_strided (data : List Nat) (start : Nat) (idx : List Int)
    (h : (continuous_messages (decrypt_text (data.drop start) 0)).length =
         (strided_messages (decrypt_text (data.drop start) 0)).length) :
    (extract_messages data start idx).1 =
      strided_messages (decrypt_text (data.drop start) 0) := by
  have hn : ¬ (continuous_messages (decrypt_text (data.drop start) 0)).length >
      (strided_messages (decrypt_text (data.drop start) 0)).length := by omega
  simp only [extract_messages]
  rw [if_neg hn]

/-- Witness for C10: on the encryption of `"HELLO\0WORLD\0"` both strategies
yield 2 candidates and the fixed-stride list is returned. -/
theorem c10_witness :
    (extract_messages (decrypt_text plainHW 0) 0 []).1 =
      strided_messages (decrypt_text ((decrypt_text plainHW 0).drop 0) 0) :=
  c10_tie_keeps_strided (decrypt_text plainHW 0) 0 [] (by decide)

theorem find_map_replace (k v : Int) : ∀ d : List (Int × Int),
    d.any (fun p => p.1 == k) = true →
    (d.map (fun p => if p.1 == k then (k, v) else p)).find? (fun p => p.1 == k) =
      some (k, v) := by
  intro d
  induction d with
  | nil => intro h; simp at h
  | cons q d ih =>
    intro h
    by_cases hq : (q.1 == k) = true
    · simp only [List.map_cons, if_pos hq]
      rw [List.find?_cons_of_pos]
      simp
    · have h2 : d.any (fun p => p.1 == k) = true := by
        simpa [List.any_cons, hq] using h
      simp only [List.map_cons, if_neg hq]
      rw [List.find?_cons_of_neg _ (by simpa using hq)]
      exact ih h2

theorem find_append_self (k v : Int) : ∀ d : List (Int × Int),
    d.any (fun p => p.1 == k) = false →
    (d ++ [(k, v)]).find? (fun p => p.1 == k) = some (k, v) := by
  intro d
  induction d with
  | nil =>
    intro h
    rw [List.nil_append, List.find?_cons_of_pos]
    simp
  | cons q d ih =>
    intro h
    rw [List.any_cons, Bool.or_eq_false_iff] at h
    obtain ⟨hq, h2⟩ := h
    rw [List.cons_append, List.find?_cons_of_neg _ (by simpa using hq)]
    exact ih h2

theorem dictGet_dictSet (d : List (Int × Int)) (k v : Int) :
    dictGet (dictSet d k v) k = some v := by
  unfold dictGet dictSet
  by_cases h : d.any (fun p => p.1 == k) = true
  · rw [if_pos h, find_map_replace k v d h]
    rfl
  · rw [if_neg h, find_append_self k v d (Bool.not_eq_true _ ▸ h)]
    rfl

theorem sparse_byte_loop_sentinel (r : List Nat) (d : List (Int × Int)) :
    sparse_byte_loop (255 :: r) d = (d, 1) := by
  match r with
  | [] => simp [sparse_byte_loop]
  | [x] => simp [sparse_byte_loop]
  | x :: y :: t => simp [sparse_byte_loop]

theorem sparse_byte_loop_step (b hi lo : Nat) (hb : (b == 255) = false)
    (r : List Nat) (d : List (Int × Int)) :
    sparse_byte_loop (b :: hi :: lo :: r) d =
      ((sparse_byte_loop r (dictSet d (b : Int) (toSigned16 hi lo))).1,
       (sparse_byte_loop r (dictSet d (b : Int) (toSigned16 hi lo))).2 + 3) := by
  rw [sparse_byte_loop]
  simp [hb]

theorem sparse_int_loop_sentinel (i1 i2 : Nat) (hv : (toSigned16 i1 i2 == -1) = true)
    (r : List Nat) (d : List (Int × Int)) :
    sparse_int_loop (i1 :: i2 :: r) d = (d, 2) := by
  match r with
  | [] => simp [sparse_int_loop, hv]
  | [x] => simp [sparse_int_loop, hv]
  | x :: y :: t => simp [sparse_int_loop, hv]

theorem sparse_int_loop_step (i1 i2 w1 w2 : Nat) (hv : (toSigned16 i1 i2 == -1) = false)
    (r : List Nat) (d : List (Int × Int)) :
    sparse_int_loop (i1 :: i2 :: w1 :: w2 :: r) d =
      ((sparse_int_loop r (dictSet d (toSigned16 i1 i2) (toSigned16 w1 w2))).1,
       (sparse_int_loop r (dictSet d (toSigned16 i1 i2) (toSigned16 w1 w2))).2 + 4) := by
  rw [sparse_int_loop]
  simp [hv]

/-- C8: behaviour of the sparse-map reader `read_partial_ints`.  With a
declared count below 255 the entry index is one unsigned byte and an index
byte 255 stops the iteration consuming exactly that byte; with a count of
255 or more the index is a signed 16-bit big-endian integer and the value -1
stops the iteration consuming exactly those two bytes; stream exhaustion
stops it consuming nothing; a non-sentinel entry stores index and value and
continues right after them; and a later entry under the same index
overwrites the earlier one. -/
theorem c8_sparse_read_spec (c : Int) (s : ByteStream) :
    (c < 255 → ∀ r : List Nat, s.data.drop s.pos = 255 :: r →
      read_sparse_ints s c = ([], ⟨s.data, s.pos + 1⟩)) ∧
    (c < 255 → ∀ (b hi lo : Nat) (r : List Nat), b ≠ 255 →
      s.data.drop s.pos = b :: hi :: lo :: r →
      read_sparse_ints s c =
        ((sparse_byte_loop r (dictSet [] (b : Int) (toSigned16 hi lo))).1,
         ⟨s.data, s.pos + ((sparse_byte_loop r (dictSet [] (b : Int) (toSigned16 hi lo))).2 + 3)⟩)) ∧
    (255 ≤ c → ∀ (hi lo : Nat) (r : List Nat), toSigned16 hi lo = -1 →
      s.data.drop s.pos = hi :: lo :: r →
      read_sparse_ints s c = ([], ⟨s.data, s.pos + 2⟩)) ∧
    (255 ≤ c → ∀ (i1 i2 w1 w2 : Nat) (r : List Nat), toSigned16 i1 i2 ≠ -1 →
      s.data.drop s.pos = i1 :: i2 :: w1 :: w2 :: r →
      read_sparse_ints s c =
        ((sparse_int_loop r (dictSet [] (toSigned16 i1 i2) (toSigned16 w1 w2))).1,
         ⟨s.data, s.pos + ((sparse_int_loop r (dictSet [] (toSigned16 i1 i2) (toSigned16 w1 w2))).2 + 4)⟩)) ∧
    (s.data.drop s.pos = [] → read_sparse_ints s c = ([], s)) ∧
    (∀ (d : List (Int × Int)) (k w1 w2 : Int),
      dictGet (dictSet (dictSet d k w1) k w2) k = some w2) := by
  refine ⟨?_, ?_, ?_, ?_, ?_, ?_⟩
  · intro hc r hr
    simp [read_sparse_ints, hr, hc, sparse_byte_loop_sentinel]
  · intro hc b hi lo r hb hr
    have hb2 : (b == 255) = false := by simpa using hb
    simp [read_sparse_ints, hr, hc, sparse_byte_loop_step b hi lo hb2 r []]
  · intro hc hi lo r hv hr
    have hc2 : ¬ c < 255 := not_lt.mpr hc
    have hv2 : (toSigned16 hi lo == -1) = true := by simpa using hv
    simp [read_sparse_ints, hr, hc2, sparse_int_loop_sentinel hi lo hv2 r []]
  · intro hc i1 i2 w1 w2 r hv hr
    have hc2 : ¬ c < 255 := not_lt.mpr hc
    have hv2 : (toSigned16 i1 i2 == -1) = false := by simpa using hv
    simp [read_sparse_ints, hr, hc2, sparse_int_loop_step i1 i2 w1 w2 hv2 r []]
  · intro hr
    by_cases hc : c < 255
    · simp [read_sparse_ints, hr, hc, sparse_byte_loop]
    · simp [read_sparse_ints, hr, hc, sparse_int_loop]
  · intro d k w1 w2
    exact dictGet_dictSet (dictSet d k w1) k w2

/-- Witness for C8: the sentinel, entry and overwrite behaviour at concrete
inputs, each part of the specification applied with its hypotheses
discharged by computation. -/
theorem c8_witness :
    read_sparse_ints ⟨[255, 9], 0⟩ 10 = ([], ⟨[255, 9], 1⟩) ∧
    read_sparse_ints ⟨[3, 0, 5, 255], 0⟩ 10 =
      ((sparse_byte_loop [255] (dictSet [] (3 : Int) (toSigned16 0 5))).1,
       ⟨[3, 0, 5, 255], 0 + ((sparse_byte_loop [255] (dictSet [] (3 : Int) (toSigned16 0 5))).2 + 3)⟩) ∧
    read_sparse_ints ⟨[255, 255, 9], 0⟩ 300 = ([], ⟨[255, 255, 9], 2⟩) ∧
    dictGet (dictSet (dictSet [] 3 5) 3 8) 3 = some 8 := by
  refine ⟨?_, ?_, ?_, ?_⟩
  · have h := (c8_sparse_read_spec 10 ⟨[255, 9], 0⟩).1 (by decide) [9] (by decide)
    simpa using h
  · have h := (c8_sparse_read_spec 10 ⟨[3, 0, 5, 255], 0⟩).2.1 (by decide) 3 0 5 [255]
      (by decide) (by decide)
    simpa using h
  · have h := (c8_sparse_read_spec 300 ⟨[255, 255, 9], 0⟩).2.2.1 (by decide) 255 255 [9]
      (by decide) (by decide)
    simpa using h
  · exact (c8_sparse_read_spec 0 ⟨[], 0⟩).2.2.2.2.2 [] 3 5 8

theorem read_ints_loop_length (n : Nat) : ∀ s : ByteStream,
    (read_ints_loop s n).1.length ≤ n := by
  induction n with
  | zero => intro s; simp [read_ints_loop]
  | succ m ih =>
    intro s
    rw [read_ints_loop]
    rcases h : read_int16_be s with ⟨v, t⟩
    cases v with
    | none => simp
    | some w => simpa using Nat.succ_le_succ (ih t)

theorem read_flags_loop_length (n : Nat) : ∀ s : ByteStream,
    (read_flags_loop s n).1.length ≤ n := by
  induction n with
  | zero => intro s; simp [read_flags_loop]
  | succ m ih =>
    intro s
    rw [read_flags_loop]
    rcases h : fread s 1 with ⟨chunk, t⟩
    cases chunk with
    | nil => simp
    | cons b rest => simpa using Nat.succ_le_succ (ih t)

/-- C2 counterexample: the 12-byte stream holding exactly the six header
ints is truncated right before the rooms count; `read_int16_be` returns
`None` for that count and `read_multiple_ints(f, None)` raises `TypeError`
at `range(None)`, so the walker does not return an offset. -/
theorem c2_counterexample :
    skip_metadata ⟨[0, 1, 0, 0, 0, 65, 0, 0, 0, 0, 0, 0], 0⟩ = .error () := by
  decide

theorem except_ok_bind {α β : Type} (x : Except Unit α) (f : α → Except Unit β) :
    (∃ b, (x >>= f) = .ok b) ↔ ∃ a, x = .ok a ∧ ∃ b, f a = .ok b := by
  cases x <;> simp [Bind.bind, Except.bind]

theorem sparse_byte_loop_consumed : ∀ (l : List Nat) (d : List (Int × Int)),
    (sparse_byte_loop l d).2 ≤ l.length
  | [], d => by simp [sparse_byte_loop]
  | [b], d => by cases hb : b == 255 <;> simp [sparse_byte_loop, hb]
  | [b, x], d => by cases hb : b == 255 <;> simp [sparse_byte_loop, hb]
  | b :: hi :: lo :: rest, d => by
    have ih := sparse_byte_loop_consumed rest (dictSet d (b : Int) (toSigned16 hi lo))
    cases hb : b == 255 <;> simp [sparse_byte_loop, hb]
    omega

theorem sparse_int_loop_consumed : ∀ (l : List Nat) (d : List (Int × Int)),
    (sparse_int_loop l d).2 ≤ l.length
  | [], d => by simp [sparse_int_loop]
  | [b], d => by simp [sparse_int_loop]
  | [i1, i2], d => by cases hv : toSigned16 i1 i2 == -1 <;> simp [sparse_int_loop, hv]
  | [i1, i2, w], d => by cases hv : toSigned16 i1 i2 == -1 <;> simp [sparse_int_loop, hv]
  | i1 :: i2 :: w1 :: w2 :: rest, d => by
    have ih := sparse_int_loop_consumed rest (dictSet d (toSigned16 i1 i2) (toSigned16 w1 w2))
    cases hv : toSigned16 i1 i2 == -1 <;> simp [sparse_int_loop, hv]
    omega

theorem read_sparse_ints_bounds (s : ByteStream) (c : Int) :
    (read_sparse_ints s c).2.data = s.data ∧
    (read_sparse_ints s c).2.pos ≤ max s.pos s.data.length := by
  have hb := sparse_byte_loop_consumed (s.data.drop s.pos) []
  have hi := sparse_int_loop_consumed (s.data.drop s.pos) []
  have hlen : (s.data.drop s.pos).length = s.data.length - s.pos := List.length_drop _ _
  unfold read_sparse_ints
  by_cases hc : c < 255 <;> simp [hc] <;> omega

/-- C2 amended: the walker raises exactly at the header prints and the count
reads, and completes otherwise.  In detail: `skip_metadata` returns an
offset-and-table pair precisely when the header and all eight section stages
succeed in sequence; each record section raises exactly when its leading
count read returns `None`, the message section exactly when its `mlnt` read
(after the `mbase` word) returns `None`, and the header exactly when the
`vedit` read fails or is negative or the `strbit` read fails; the dense and
flag reads return at most the declared number of elements — fewer when the
stream exhausts inside them — and the sparse-map read is total, preserves
the data and never moves the cursor past the end of the stream.  On the
synthetic end-to-end file the walker returns offset 46, and on a file
truncated inside the declared-5-entry message-index table it returns the
reached end-of-file offset 50 with the 2 entries present. -/
theorem c2_truncation_behaviour :
    (∀ s : ByteStream, (∃ r, skip_metadata s = .ok r) ↔
      ∃ s1, skip_header s = .ok s1 ∧
      ∃ s2, skip_rooms s1 = .ok s2 ∧
      ∃ s3, skip_exits s2 = .ok s3 ∧
      ∃ s4, skip_objects s3 = .ok s4 ∧
      ∃ s5, skip_room2 s4 = .ok s5 ∧
      ∃ s6, skip_clock s5 = .ok s6 ∧
      ∃ s7, skip_villains s6 = .ok s7 ∧
      ∃ s8, skip_adventurers s7 = .ok s8 ∧
      ∃ r, skip_message s8 = .ok r) ∧
    (∀ s : ByteStream, skip_rooms s = .error () ↔ (read_int16_be s).1 = none) ∧
    (∀ s : ByteStream, skip_exits s = .error () ↔ (read_int16_be s).1 = none) ∧
    (∀ s : ByteStream, skip_objects s = .error () ↔ (read_int16_be s).1 = none) ∧
    (∀ s : ByteStream, skip_room2 s = .error () ↔ (read_int16_be s).1 = none) ∧
    (∀ s : ByteStream, skip_clock s = .error () ↔ (read_int16_be s).1 = none) ∧
    (∀ s : ByteStream, skip_villains s = .error () ↔ (read_int16_be s).1 = none) ∧
    (∀ s : ByteStream, skip_adventurers s = .error () ↔ (read_int16_be s).1 = none) ∧
    (∀ s : ByteStream, skip_message s = .error () ↔
      (read_int16_be (read_int16_be s).2).1 = none) ∧
    (∀ s : ByteStream, skip_header s = .error () ↔
      (vedit_read s = none ∨ (∃ v, vedit_read s = some v ∧ v < 0) ∨ strbit_read s = none)) ∧
    (∀ (s : ByteStream) (c : Int),
      (read_multiple_ints s c).1.length ≤ c.toNat ∧
      (read_flags s c).1.length ≤ c.toNat ∧
      (read_sparse_ints s c).2.data = s.data ∧
      (read_sparse_ints s c).2.pos ≤ max s.pos s.data.length) ∧
    skip_metadata ⟨fileHW, 0⟩ = .ok (46, []) ∧
    skip_metadata ⟨truncatedMeta, 0⟩ = .ok (50, [7, 9]) := by
  refine ⟨?_, ?_, ?_, ?_, ?_, ?_, ?_, ?_, ?_, ?_, ?_, by decide, by decide⟩
  · intro s
    unfold skip_metadata
    simp only [except_ok_bind]
  · intro s
    unfold skip_rooms
    rcases h : read_int16_be s with ⟨c, t⟩
    cases c <;> simp
  · intro s
    unfold skip_exits
    rcases h : read_int16_be s with ⟨c, t⟩
    cases c <;> simp
  · intro s
    unfold skip_objects
    rcases h : read_int16_be s with ⟨c, t⟩
    cases c <;> simp
  · intro s
    unfold skip_room2
    rcases h : read_int16_be s with ⟨c, t⟩
    cases c <;> simp
  · intro s
    unfold skip_clock
    rcases h : read_int16_be s with ⟨c, t⟩
    cases c <;> simp
  · intro s
    unfold skip_villains
    rcases h : read_int16_be s with ⟨c, t⟩
    cases c <;> simp
  · intro s
    unfold skip_adventurers
    rcases h : read_int16_be s with ⟨c, t⟩
    cases c <;> simp
  · intro s
    unfold skip_message
    rcases h : read_int16_be s with ⟨mb, t⟩
    dsimp only
    rcases h2 : read_int16_be t with ⟨ml, t2⟩
    cases ml <;> simp
  · intro s
    unfold skip_header vedit_read strbit_read
    rcases h1 : read_int16_be s with ⟨v1, t1⟩
    dsimp only
    rcases h2 : read_int16_be t1 with ⟨v2, t2⟩
    dsimp only
    rcases h3 : read_int16_be t2 with ⟨v3, t3⟩
    dsimp only
    cases v3 with
    | none => simp
    | some v =>
      by_cases hv : v < 0
      · simp [hv]
      · rcases h4 : read_int16_be t3 with ⟨v4, t4⟩
        dsimp only
        rcases h5 : read_int16_be t4 with ⟨v5, t5⟩
        dsimp only
        cases v5 <;> simp [hv]
  · intro s c
    have hsp := read_sparse_ints_bounds s c
    exact ⟨read_ints_loop_length c.toNat s, read_flags_loop_length c.toNat s, hsp.1, hsp.2⟩

/-- C3 counterexample: on the file holding exactly the 6-byte version
header, the walker raises (the `{strbit:04x}` format of a `None` parameter,
and `range(None)` right after), so the pipeline does not return the empty
message list with quality 0. -/
theorem c3_counterexample : pipeline [0, 1, 0, 0, 0, 65] ≠ .ok ([], 0) := by
  have h : pipeline [0, 1, 0, 0, 0, 65] = .error () := by decide
  rw [h]
  simp

/-- C3 amended: an input truncated to zero bytes after the 6-byte version
header makes the pipeline raise inside the walker rather than return an
empty message list with quality 0. -/
theorem c3_truncated_header_raises : pipeline [0, 1, 0, 0, 0, 65] = .error () := by
  decide

theorem extract_fileHW_eval :
    extract_messages fileHW 46 [] = ([[72, 69, 76, 76, 79], [82, 76, 68]], 1) := by
  have hdec : decrypt_text (fileHW.drop 46) 0 = plainHW := by decide
  have hsel : ¬ (continuous_messages plainHW).length > (strided_messages plainHW).length := by
    decide
  have hstr : strided_messages plainHW = [[72, 69, 76, 76, 79], [82, 76, 68]] := by decide
  have hcnt : (plainHW.filter allowedByte).length = 12 := by decide
  have hlen : plainHW.length = 12 := by decide
  have hq : quality_of plainHW = 1 := by
    rw [quality_of, hcnt, hlen]
    norm_num
  simp only [extract_messages, hdec]
  rw [if_neg hsel, hstr, hq]

theorem pipeline_fileHW_eval :
    pipeline fileHW = .ok ([[72, 69, 76, 76, 79], [82, 76, 68]], 1) := by
  have hskip : skip_metadata ⟨fileHW, 0⟩ = .ok (46, []) := by decide
  simp only [pipeline, bind, Except.bind, hskip, extract_fileHW_eval, pure, Except.pure]

theorem pipeline_fileHWspec_eval : pipeline fileHWspec = .ok ([], 0) := by
  have hskip : skip_metadata ⟨fileHWspec, 0⟩ = .ok (56, [8195, 10859, 12845, 3620, 14183]) := by
    decide
  have hdec : decrypt_text (fileHWspec.drop 56) 0 = [] := by decide
  have hext : extract_messages fileHWspec 56 [8195, 10859, 12845, 3620, 14183] = ([], 0) := by
    simp only [extract_messages, hdec]
    rfl
  simp only [pipeline, bind, Except.bind, hskip, hext, pure, Except.pure]

/-- C1 counterexample: the pipeline does not recover `["HELLO", "WORLD"]`
from the synthetic file — neither from the file in the own layout of the walker
(where it returns `["HELLO", "RLD"]`: the two strategies tie at two
candidates each, so the fixed-stride list wins and its second 8-byte chunk
truncates to `"RLD"`), nor from the file laid out as the spec describes it
without the `mbase` word (where the walker consumes the text region as
metadata and returns no messages at all). -/
theorem c1_counterexample :
    pipeline fileHW ≠ .ok ([[72, 69, 76, 76, 79], [87, 79, 82, 76, 68]], 1) ∧
    pipeline fileHWspec ≠ .ok ([[72, 69, 76, 76, 79], [87, 79, 82, 76, 68]], 1) := by
  constructor
  · rw [pipeline_fileHW_eval]
    intro h
    exact absurd (congrArg Prod.fst (Except.ok.inj h)) (by decide)
  · rw [pipeline_fileHWspec_eval]
    intro h
    exact absurd (congrArg Prod.fst (Except.ok.inj h)) (by decide)

/-- C1 amended: on the synthetic empty-schema file carrying the extra zero
`mbase` word of the walker before the message count and the encryption of
`"HELLO\0WORLD\0"` (counter 0, key `"IanLanceTaylorJr"`) as its text region,
the pipeline returns the messages `["HELLO", "RLD"]` and quality ratio 1. -/
theorem c1_end_to_end :
    pipeline fileHW = .ok ([[72, 69, 76, 76, 79], [82, 76, 68]], 1) :=
  pipeline_fileHW_eval

theorem skip_rooms_eq (s : ByteStream) : skip_rooms s = walk_section s roomsFields := by
  unfold skip_rooms walk_section roomsFields
  rcases h : read_int16_be s with ⟨c, t⟩
  cases c <;> rfl

theorem skip_exits_eq (s : ByteStream) : skip_exits s = walk_section s exitsFields := by
  unfold skip_exits walk_section exitsFields
  rcases h : read_int16_be s with ⟨c, t⟩
  cases c <;> rfl

theorem skip_objects_eq (s : ByteStream) : skip_objects s = walk_section s objectsFields := by
  unfold skip_objects walk_section objectsFields
  rcases h : read_int16_be s with ⟨c, t⟩
  cases c <;> rfl

theorem skip_room2_eq (s : ByteStream) : skip_room2 s = walk_section s room2Fields := by
  unfold skip_room2 walk_section room2Fields
  rcases h : read_int16_be s with ⟨c, t⟩
  cases c <;> rfl

theorem skip_clock_eq (s : ByteStream) : skip_clock s = walk_section s clockFields := by
  unfold skip_clock walk_section clockFields
  rcases h : read_int16_be s with ⟨c, t⟩
  cases c <;> rfl

theorem skip_villains_eq (s : ByteStream) : skip_villains s = walk_section s villainsFields := by
  unfold skip_villains walk_section villainsFields
  rcases h : read_int16_be s with ⟨c, t⟩
  cases c <;> rfl

theorem skip_adventurers_eq (s : ByteStream) :
    skip_adventurers s = walk_section s adventurersFields := by
  unfold skip_adventurers walk_section adventurersFields
  rcases h : read_int16_be s with ⟨c, t⟩
  cases c <;> rfl

/-- C5 counterexample: on the empty-schema metadata the walker stops at
offset 46, two bytes past where a walk in which the message-index section is
exactly one leading count and its table (`skip_metadata_claim`, modelled
from the spec) stops: the message-index section is not one count plus its
fields, because an extra int16 (`mbase`) precedes the count. -/
theorem c5_counterexample :
    (skip_metadata ⟨emptyMeta, 0⟩).map Prod.fst = .ok 46 ∧
    skip_metadata_claim ⟨emptyMeta, 0⟩ = .ok 44 ∧
    (skip_metadata ⟨emptyMeta, 0⟩).map Prod.fst ≠ skip_metadata_claim ⟨emptyMeta, 0⟩ := by
  refine ⟨by decide, by decide, by decide⟩

/-- C5 amended: each of the first seven schema sections is exactly one
leading 16-bit count followed by its fixed field list, every field read with
that count; the message-index section alone is preceded by one additional
int16 (`mbase`) before its count, after which it too is a count and a
DenseArray of that many int16s, nothing more: the walker equals the
table-driven walk with that extra word. -/
theorem except_map_bind {α β γ : Type} (f : β → γ) (x : Except Unit α)
    (g : α → Except Unit β) :
    Except.map f (x >>= g) = x >>= fun a => Except.map f (g a) := by
  cases x <;> rfl

theorem except_bind_congr {α β : Type} (x : Except Unit α) (f g : α → Except Unit β)
    (h : ∀ a, f a = g a) : x >>= f = x >>= g := by
  cases x with
  | error e => rfl
  | ok a => exact h a

theorem skip_message_table (s : ByteStream) :
    Except.map Prod.fst (skip_message s) =
      walk_section (read_int16_be s).2 messageFields >>= fun u => pure u.pos := by
  unfold skip_message walk_section messageFields
  rcases h : read_int16_be s with ⟨mb, t⟩
  dsimp only
  rcases h2 : read_int16_be t with ⟨ml, t2⟩
  dsimp only
  cases ml <;> rfl

theorem c5_walker_table (s : ByteStream) :
    (skip_metadata s).map Prod.fst = skip_metadata_table s := by
  unfold skip_metadata skip_metadata_table
  rw [except_map_bind]
  refine except_bind_congr _ _ _ fun s1 => ?_
  rw [skip_rooms_eq, except_map_bind]
  refine except_bind_congr _ _ _ fun s2 => ?_
  rw [skip_exits_eq, except_map_bind]
  refine except_bind_congr _ _ _ fun s3 => ?_
  rw [skip_objects_eq, except_map_bind]
  refine except_bind_congr _ _ _ fun s4 => ?_
  rw [skip_room2_eq, except_map_bind]
  refine except_bind_congr _ _ _ fun s5 => ?_
  rw [skip_clock_eq, except_map_bind]
  refine except_bind_congr _ _ _ fun s6 => ?_
  rw [skip_villains_eq, except_map_bind]
  refine except_bind_congr _ _ _ fun s7 => ?_
  rw [skip_adventurers_eq, except_map_bind]
  refine except_bind_congr _ _ _ fun s8 => ?_
  exact skip_message_table s8

end ZorkDecode
